import Mathlib

/-!
Verification of the episode reordering and field-aggregation engine of
dvd_order.py (dbr/tvdb_api). The Python source is shallowly embedded:

* XML elements (xml.etree.ElementTree) become the inductive type Elem,
  holding a tag, an optional text and a list of children; find and findall
  search immediate children by tag, as the source only uses one-level and
  two-level paths on flat documents.
* Python strings are Lean String values; the slice s[:-2] is modelled on
  the character list, as are split and join, which the source only calls
  with the separators given in the code.
* Python exceptions are modelled with Except PyErr; code protected by a
  try/except block is folded back into the degraded value exactly where the
  source catches.
* Python sets are modelled as first-seen-order deduplicated lists. Where
  the source immediately sorts the set (the candidate episode numbers) the
  model is exact; iteration order of a multi-element set of strings is
  hash-randomized in CPython and is NOT captured by this model (see the
  season loop in create_dvd_tree).
* Python floats are modelled as exact unnormalized rationals (PyFloat),
  exact on the plain decimal literals and small arithmetic the claims
  touch; exponent notation, inf, nan and binary rounding are not modelled.
-/

namespace DvdOrder

/-- Kinds of Python exception that the embedded code can raise. -/
inductive PyErr where
  | attributeError
  | valueError
  | typeError
  deriving DecidableEq, Repr

/-- An ElementTree element: a tag, an optional text and child elements. -/
inductive Elem where
  | mk (tag : String) (text : Option String) (children : List Elem)

/-- Tag of an element. -/
def Elem.tag : Elem → String
  | .mk t _ _ => t

/-- Text of an element (None in Python becomes none). -/
def Elem.text : Elem → Option String
  | .mk _ s _ => s

/-- Children of an element. -/
def Elem.children : Elem → List Elem
  | .mk _ _ c => c

/-- Element.find: first immediate child with the given tag, None if absent. -/
def Elem.find (e : Elem) (t : String) : Option Elem :=
  e.children.find? (fun c => decide (c.tag = t))

/-- Element.findall with a single tag: all immediate children with that tag. -/
def Elem.findall (e : Elem) (t : String) : List Elem :=
  e.children.filter (fun c => decide (c.tag = t))

/-- One member of an episode group, the Segment dictionary of the source:
    the EpisodeName text (only segments with a non-None name are kept, so the
    name is a plain string), the Overview text and the whole episode node. -/
structure Segment where
  name : String
  overview : Option String
  epNode : Elem

/-- Keep the first occurrence of each element, dropping later duplicates.
    Used to model the element set built by get_element_texts; CPython
    iterates such a set in hash order, the model fixes first-seen order. -/
def dedupFirst (l : List String) : List String :=
  l.foldl (fun acc a => if a ∈ acc then acc else acc ++ [a]) []

/-- get_element_texts(showtree, t1 + "/" + t2): the texts of all t2 children
    of t1 children of the root, with None removed (a Python set). -/
def get_element_texts (showtree : Elem) (t1 t2 : String) : List String :=
  dedupFirst (((showtree.findall t1).flatMap (fun e => e.findall t2)).filterMap Elem.text)

/-- Python join at the character level: joinSepL sep pieces concatenates the
    pieces with sep between consecutive pieces. -/
def joinSepL (sep : List Char) : List (List Char) → List Char
  | [] => []
  | [p] => p
  | p :: ps => p ++ sep ++ joinSepL sep ps

/-- Python sep.join(pieces) for a string separator. -/
def pyjoinS (sep : String) (l : List String) : String :=
  String.mk (joinSepL sep.data (l.map String.data))

/-- Helper for splitChars: prepend a character to the first piece. -/
def consHead (c : Char) : List (List Char) → List (List Char)
  | [] => [[c]]
  | p :: ps => (c :: p) :: ps

/-- Python split on a one-character separator, at the character level.
    The empty input gives one empty piece, as in Python. -/
def splitChars (sep : Char) : List Char → List (List Char)
  | [] => [[]]
  | c :: cs => if c = sep then [] :: splitChars sep cs else consHead c (splitChars sep cs)

/-- Python s.split(sep) for a one-character separator. -/
def pysplit (sep : Char) (s : String) : List String :=
  (splitChars sep s.data).map String.mk

/-- Python slice s[:-2]: drop the last two characters, empty when shorter. -/
def pydrop2 (s : String) : String :=
  String.mk s.data.dropLast.dropLast

/-- Matching rule of create_dvd_tree lines 101-104: normalize an absent
    DVD_episodenumber text to the empty string, strip the last two characters
    and compare with the decimal string of the candidate episode number. -/
def segment_matches (key : Option String) (episodenum : Int) : Bool :=
  decide (pydrop2 (key.getD "") = toString episodenum)

/-- create_episode_title: join the member names with the three-character
    separator of the source. -/
def create_episode_title (episode_parts : List Segment) : String :=
  pyjoinS " | " (episode_parts.map Segment.name)

/-- create_episode_overview: a single member keeps its overview verbatim
    (None included); several members replace a None overview by the empty
    string and join name-prefixed blocks with newlines. -/
def create_episode_overview (episode_parts : List Segment) : Option String :=
  match episode_parts with
  | [seg] => seg.overview
  | _ =>
      some (pyjoinS "\n"
        (episode_parts.map (fun seg => seg.name ++ ":\n" ++ seg.overview.getD "")))

/-- Sequence a list of Except values, stopping at the first error, as a
    Python list comprehension raises at the first failing element. -/
def listExAll : List (Except PyErr α) → Except PyErr (List α)
  | [] => .ok []
  | .error e :: _ => .error e
  | .ok a :: rest => (listExAll rest).map (a :: ·)

/-- Sequence a list of Option values, as a comprehension inside a try block:
    any absent value makes the whole block degrade. -/
def listOptAll : List (Option α) → Option (List α)
  | [] => some []
  | none :: _ => none
  | some a :: rest => (listOptAll rest).map (a :: ·)

/-- Text of the tag child of one member, raising AttributeError when the
    child is absent, as seg.find(tag).text does. -/
def memberText (tag : String) (seg : Segment) : Except PyErr (Option String) :=
  match seg.epNode.find tag with
  | none => .error .attributeError
  | some e => .ok e.text

/-- Indexing a Python set object: always raises TypeError, because set does
    not support subscripting. This is the entries[0] expression of
    retrieve_single_entry line 56. -/
def pySetIndex (_entries : List String) (_i : Nat) : Except PyErr String :=
  .error .typeError

/-- retrieve_single_entry: build the set of member texts for the tag, drop
    None, then take entries[0]. Indexing the set raises TypeError, the bare
    except catches it, so the function returns the empty string on every
    input. -/
def retrieve_single_entry (episode_parts : List Segment) (tag : String) : String :=
  match (do
      let texts ← listExAll (episode_parts.map (memberText tag))
      let entries := dedupFirst (texts.filterMap id)
      pySetIndex entries 0 : Except PyErr String) with
  | .error _ => ""
  | .ok d => d

/-- get_boolean_flag: the set of member texts for the tag (no try block, an
    absent child raises); emit "1" when some member text is "1". -/
def get_boolean_flag (episode_parts : List Segment) (tag : String) :
    Except PyErr String := do
  let bools ← listExAll (episode_parts.map (memberText tag))
  pure (if (some "1") ∈ bools then "1" else "0")

/-- Lexicographic comparison of character lists by code point, the order
    Python uses to sort strings. -/
def leChars : List Char → List Char → Bool
  | [], _ => true
  | _ :: _, [] => false
  | a :: as, b :: bs =>
      if a.toNat < b.toNat then true
      else if b.toNat < a.toNat then false
      else leChars as bs

/-- Python string comparison, code-point lexicographic. -/
def pyStrLe (a b : String) : Bool :=
  leChars a.data b.data

/-- Distinct member texts sorted lexicographically ascending: the
    sorted(set(...)) idiom of compile_piped_list. -/
def sortDedupStr (l : List String) : List String :=
  List.insertionSort (fun a b : String => pyStrLe a b = true) l.dedup

/-- Garbage removal of compile_piped_list lines 39-41: drop one occurrence
    of the empty string and of the literal "None" when present. -/
def removeGarbage (l : List String) : List String :=
  let l1 := if "" ∈ l then l.erase "" else l
  if "None" ∈ l1 then l1.erase "None" else l1

/-- Deduplicated, sorted, garbage-free item list built by
    compile_piped_list lines 37-41 from the collected member texts. -/
def piped_flat (listy : List String) : List String :=
  removeGarbage (sortDedupStr ((listy.map (pysplit '|')).flatten))

/-- Body of the try block of compile_piped_list, lines 36-44, once the
    member texts have been collected: split on the pipe character, flatten,
    deduplicate, sort, remove garbage, re-join framed by pipes; the
    empty-list form collapses to the empty string. -/
def piped_core (listy : List String) : String :=
  let data := "|" ++ pyjoinS "|" (piped_flat listy) ++ "|"
  if data = "||" then "" else data

/-- compile_piped_list: collect the member texts for the tag and run the
    list pipeline on them; any failure inside the try block (absent child
    or None text) degrades to the empty string. -/
def compile_piped_list (episode_parts : List Segment) (tag : String) : String :=
  match listOptAll
      (episode_parts.map (fun seg => (seg.epNode.find tag).bind Elem.text)) with
  | none => ""
  | some listy => piped_core listy

/-- Exact rational model of a Python float value: an unnormalized fraction.
    Exact for the plain decimal literals and the small arithmetic exercised
    here; binary rounding of doubles is not modelled. -/
structure PyFloat where
  num : Int
  den : Nat
  deriving DecidableEq, Repr

/-- Addition of float values. -/
def PyFloat.add (a b : PyFloat) : PyFloat :=
  ⟨a.num * b.den + b.num * a.den, a.den * b.den⟩

/-- Division of a float value by a positive integer count. -/
def PyFloat.divNat (a : PyFloat) (n : Nat) : PyFloat :=
  ⟨a.num, a.den * n⟩

/-- Python int(x) on a float value: truncation toward zero. -/
def PyFloat.trunc (a : PyFloat) : Int :=
  if 0 ≤ a.num then Int.ofNat (a.num.toNat / a.den)
  else - Int.ofNat ((- a.num).toNat / a.den)

/-- Value of a list of decimal digit characters. -/
def digitsToNat (l : List Char) : Nat :=
  l.foldl (fun acc c => acc * 10 + (c.toNat - '0'.toNat)) 0

/-- Python float(s) on plain decimal literals: optional sign, integer
    digits, optional fraction. Exponent notation, inf, nan, underscores and
    surrounding whitespace are treated as parse failures (ValueError); no
    claim exercises those forms. -/
def pyfloat (s : String) : Except PyErr PyFloat :=
  let signed : Int × List Char :=
    match s.data with
    | '+' :: r => (1, r)
    | '-' :: r => (-1, r)
    | cs => (1, cs)
  let sgn := signed.1
  let cs := signed.2
  let intd := cs.takeWhile Char.isDigit
  let rest := cs.dropWhile Char.isDigit
  match rest with
  | [] =>
      if intd.isEmpty then .error .valueError
      else .ok ⟨sgn * digitsToNat intd, 1⟩
  | '.' :: r =>
      let fracd := r.takeWhile Char.isDigit
      let rest2 := r.dropWhile Char.isDigit
      if rest2.isEmpty = false then .error .valueError
      else if intd.isEmpty && fracd.isEmpty then .error .valueError
      else .ok ⟨sgn * (digitsToNat intd * 10 ^ fracd.length + digitsToNat fracd),
                10 ^ fracd.length⟩
  | _ => .error .valueError

/-- Python int(float(s)): parse then truncate toward zero. -/
def int_float (s : String) : Except PyErr Int :=
  (pyfloat s).map PyFloat.trunc

/-- Decimal digits of n padded on the left with zeros to width k. -/
def padZeros (k : Nat) (n : Nat) : String :=
  let s := toString n
  String.mk (List.replicate (k - s.length) '0' ++ s.data)

/-- Smallest k (starting from the first argument, bounded by fuel) such
    that num times 10 to the k is divisible by den. -/
def findTermK (num den : Nat) : Nat → Nat → Option Nat
  | _, 0 => none
  | k, fuel + 1 =>
      if (num * 10 ^ k) % den = 0 then some k else findTermK num den (k + 1) fuel

/-- Decimal text of the nonnegative fraction num / den, in the style of
    Python str on a float: integral values end in ".0", otherwise the
    shortest terminating expansion is printed. Fractions with no
    terminating expansion within 60 digits fall back to a fraction form;
    real Python floats always terminate, and no claim reaches this case. -/
def pystr_pos (num den : Nat) : String :=
  if num % den = 0 then toString (num / den) ++ ".0"
  else
    match findTermK num den 1 60 with
    | some k =>
        let m := num * 10 ^ k / den
        toString (m / 10 ^ k) ++ "." ++ padZeros k (m % 10 ^ k)
    | none => toString num ++ "/" ++ toString den

/-- Python str on a float value. -/
def pystr_float (a : PyFloat) : String :=
  if a.num < 0 then "-" ++ pystr_pos (- a.num).toNat a.den
  else pystr_pos a.num.toNat a.den

/-- Parsed float of the tag child of one member: an absent child raises
    AttributeError, a None text raises TypeError (float of None), and the
    text itself may fail to parse. -/
def fieldFloat (tag : String) (seg : Segment) : Except PyErr PyFloat :=
  match seg.epNode.find tag with
  | none => .error .attributeError
  | some e =>
      match e.text with
      | none => .error .typeError
      | some t => pyfloat t

/-- get_average_value: mean of the parsed member values rendered as decimal
    text; any failure inside the try block, including the zero-member
    division, degrades to the literal "0". -/
def get_average_value (episode_parts : List Segment) (tag : String) : String :=
  match listExAll (episode_parts.map (fieldFloat tag)) with
  | .error _ => "0"
  | .ok [] => "0"
  | .ok vals => pystr_float ((vals.foldl PyFloat.add ⟨0, 1⟩).divNat vals.length)

/-- One iteration of the inner scan of create_dvd_tree lines 99-111: decide
    whether one Episode element joins the group for the given season label
    and candidate episode number, building its Segment dictionary. An
    Episode without a DVD_season child raises; one whose matched row lacks
    DVD_episodenumber, EpisodeName or Overview raises; a None EpisodeName
    drops the segment. -/
def build_segment (seasonnum : String) (episodenum : Int) (item : Elem) :
    Except PyErr (Option Segment) :=
  match item.find "DVD_season" with
  | none => .error .attributeError
  | some seasElem =>
    if seasElem.text = some seasonnum then
      match item.find "DVD_episodenumber" with
      | none => .error .attributeError
      | some keyElem =>
        if segment_matches keyElem.text episodenum then
          match item.find "EpisodeName" with
          | none => .error .attributeError
          | some nameElem =>
            match item.find "Overview" with
            | none => .error .attributeError
            | some overElem =>
              .ok (match nameElem.text with
                   | none => none
                   | some nm => some ⟨nm, overElem.text, item⟩)
        else .ok none
    else .ok none

/-- Run a per-item step over a list, collecting the hits in order and
    propagating the first raised exception. -/
def collectSome (f : α → Except PyErr (Option β)) : List α → Except PyErr (List β)
  | [] => .ok []
  | a :: as => do
      let ob ← f a
      let bs ← collectSome f as
      pure (match ob with | none => bs | some b => b :: bs)

/-- The episode_parts list built for one (season, candidate) pair. -/
def build_episode_parts (showtree : Elem) (seasonnum : String) (episodenum : Int) :
    Except PyErr (List Segment) :=
  collectSome (build_segment seasonnum episodenum) (showtree.findall "Episode")

/-- Python list.remove: drop the first occurrence, ValueError when absent. -/
def pyremove (l : List String) (t : String) : Except PyErr (List String) :=
  if t ∈ l then .ok (l.erase t) else .error .valueError

/-- Sequential list.remove calls for a batch of tags. -/
def removeAll : List String → List String → Except PyErr (List String)
  | l, [] => .ok l
  | l, t :: ts => do removeAll (← pyremove l t) ts

/-- Distinct integers sorted ascending: sorted(set(...)) on candidates. -/
def sortDedupInt (l : List Int) : List Int :=
  List.insertionSort (fun a b : Int => a ≤ b) l.dedup

/-- Candidate episode numbers, lines 92-95: the distinct DVD_episodenumber
    texts of the whole document, each parsed by int(float(..)), sorted. -/
def derive_candidates (showtree : Elem) : Except PyErr (List Int) :=
  (listExAll ((get_element_texts showtree "Episode" "DVD_episodenumber").map int_float)).map
    sortDedupInt

/-- Body of the per-candidate loop, lines 97-152: build the group, skip it
    when empty, otherwise emit the merged Episode element with the fixed
    field order and per-field policies of the source. -/
def process_candidate (showtree : Elem) (seasonnum : String) (episodenum : Int) :
    Except PyErr (Option Elem) := do
  let parts ← build_episode_parts showtree seasonnum episodenum
  match parts with
  | [] => pure none
  | first :: _ => do
      let tags0 := first.epNode.children.map Elem.tag
      let tags1 ← removeAll tags0 ["EpisodeName", "Overview", "SeasonNumber", "EpisodeNumber"]
      let tags2 ← removeAll tags1 ["Director", "Writer", "GuestStars"]
      let tags3 ← removeAll tags2 ["Rating"]
      let flag ← get_boolean_flag parts "EpImgFlag"
      let tags4 ← removeAll tags3 ["EpImgFlag"]
      pure (some (Elem.mk "Episode" none (
        [Elem.mk "EpisodeName" (some (create_episode_title parts)) [],
         Elem.mk "SeasonNumber" (some seasonnum) [],
         Elem.mk "EpisodeNumber" (some (toString episodenum)) [],
         Elem.mk "Overview" (create_episode_overview parts) []]
        ++ ["Director", "Writer", "GuestStars"].map
             (fun t => Elem.mk t (some (compile_piped_list parts t)) [])
        ++ [Elem.mk "Rating" (some (get_average_value parts "Rating")) []]
        ++ [Elem.mk "EpImgFlag" (some flag) []]
        ++ tags4.map (fun t => Elem.mk t (some (retrieve_single_entry parts t)) []))))

/-- Body of the per-season loop, lines 91-152: candidates are recomputed
    for every season (identically), then each candidate is processed. -/
def process_season (showtree : Elem) (seasonnum : String) : Except PyErr (List Elem) := do
  let cands ← derive_candidates showtree
  collectSome (process_candidate showtree seasonnum) cands

/-- create_dvd_tree: the output Data element carries a structural copy of
    the Series element followed by the merged episodes of every season.
    Appending a missing Series (None) raises TypeError. The Python season
    loop iterates a set in hash order; this model fixes first-seen order,
    which is exact whenever at most one distinct season label occurs. -/
def create_dvd_tree (showtree : Elem) : Except PyErr Elem :=
  match showtree.find "Series" with
  | none => Except.error PyErr.typeError
  | some series => do
      let episodeLists ← listExAll
        ((get_element_texts showtree "Episode" "DVD_season").map (process_season showtree))
      pure (Elem.mk "Data" none (series :: episodeLists.flatten))

end DvdOrder

namespace DvdOrder

/-! Concrete documents used by the claims. -/

/-- Leaf element with a tag and an optional text. -/
def leafE (tag : String) (txt : Option String) : Elem :=
  Elem.mk tag txt []

/-- Source episode record carrying only the four fields named by the spec
    scenario: release-season label, release-episode key, title, overview. -/
def srcEp (season key name : String) (ov : Option String) : Elem :=
  Elem.mk "Episode" none
    [leafE "DVD_season" (some season), leafE "DVD_episodenumber" (some key),
     leafE "EpisodeName" (some name), leafE "Overview" ov]

/-- Source episode record also carrying the sibling fields that
    create_dvd_tree structurally requires on a group member (the nine
    removable tags), with texts left as None. -/
def fullEp (season key name : String) (ov : Option String) : Elem :=
  Elem.mk "Episode" none
    [leafE "DVD_season" (some season), leafE "DVD_episodenumber" (some key),
     leafE "EpisodeName" (some name), leafE "Overview" ov,
     leafE "SeasonNumber" (some "7"), leafE "EpisodeNumber" (some "9"),
     leafE "Director" none, leafE "Writer" none, leafE "GuestStars" none,
     leafE "Rating" none, leafE "EpImgFlag" none]

/-- Series element shared by the concrete documents. -/
def seriesElem : Elem :=
  Elem.mk "Series" (some "S") []

/-- The end-to-end scenario document exactly as the claim states it: four
    records in season "1" with keys "01", "02", "03.1", "03.2". -/
def docC1 : Elem :=
  Elem.mk "Data" none
    [seriesElem,
     srcEp "1" "01" "Alpha" (some "first"), srcEp "1" "02" "Beta" (some "second"),
     srcEp "1" "03.1" "Gamma1" (some "g1"), srcEp "1" "03.2" "Gamma2" (some "g2")]

/-- The scenario with keys in the float form the matching rule actually
    recovers ("1.0", "2.0", "3.1", "3.2") and structurally complete
    records. -/
def docC1amended : Elem :=
  Elem.mk "Data" none
    [seriesElem,
     fullEp "1" "1.0" "Alpha" (some "first"), fullEp "1" "2.0" "Beta" (some "second"),
     fullEp "1" "3.1" "Gamma1" (some "g1"), fullEp "1" "3.2" "Gamma2" (some "g2")]

/-- Merged episode node produced for season "1" from members built by
    fullEp: computed title, season, number and overview, then the
    fixed-policy fields degraded on the all-None sources, then the two
    leftover first-member fields emptied by the single-entry policy. -/
def mergedEp (num title ov : String) : Elem :=
  Elem.mk "Episode" none
    [leafE "EpisodeName" (some title), leafE "SeasonNumber" (some "1"),
     leafE "EpisodeNumber" (some num), leafE "Overview" (some ov),
     leafE "Director" (some ""), leafE "Writer" (some ""),
     leafE "GuestStars" (some ""), leafE "Rating" (some "0"),
     leafE "EpImgFlag" (some "0"), leafE "DVD_season" (some ""),
     leafE "DVD_episodenumber" (some "")]

/-- Document whose only episode carries an unparsable release-episode key. -/
def docC3bad : Elem :=
  Elem.mk "Data" none [seriesElem, srcEp "1" "abc" "A" none]

/-- Document with a key in fractional form and a key that is a plain
    three-digit numeral. -/
def docC10 : Elem :=
  Elem.mk "Data" none [seriesElem, srcEp "1" "3.0" "A" none, srcEp "1" "312" "B" none]

/-- Document with a series node and one episode whose season label is
    absent (None text), so no usable release-season label exists. -/
def docNoSeason : Elem :=
  Elem.mk "Data" none [seriesElem, Elem.mk "Episode" none [leafE "DVD_season" none]]

/-! Small helper lemmas about strings. -/

/-- Rebuilding a string from its character data gives the string back. -/
theorem mk_data (s : String) : String.mk s.data = s := by
  cases s
  rfl

/-- Dropping the last two characters of a list extended by two characters
    gives the list back. -/
theorem dropLast_two_append (l : List Char) (a b : Char) :
    (l ++ [a, b]).dropLast.dropLast = l := by
  have h : l ++ [a, b] = (l ++ [a]) ++ [b] := by simp
  rw [h, List.dropLast_concat, List.dropLast_concat]

/-- The digit accumulator of Nat.repr never returns the empty list when the
    accumulator is nonempty. -/
theorem toDigitsCore_ne_nil (b : Nat) :
    ∀ (fuel n : Nat) (acc : List Char), acc ≠ [] → Nat.toDigitsCore b fuel n acc ≠ [] := by
  intro fuel
  induction fuel with
  | zero => intro n acc h; simpa [Nat.toDigitsCore] using h
  | succ fuel ih =>
      intro n acc _
      simp only [Nat.toDigitsCore]
      split
      · simp
      · exact ih (n / b) (Nat.digitChar (n % b) :: acc) (by simp)

/-- The decimal representation of a natural number is never empty. -/
theorem natRepr_ne_empty (n : Nat) : Nat.repr n ≠ "" := by
  unfold Nat.repr Nat.toDigits
  intro h
  have hd : Nat.toDigitsCore 10 (n + 1) n [] = [] := by
    have := congrArg String.data h
    simpa [List.asString] using this
  revert hd
  simp only [Nat.toDigitsCore]
  split
  · simp
  · exact toDigitsCore_ne_nil 10 n (n / 10) [Nat.digitChar (n % 10)] (by simp)

/-- The decimal representation of an integer is never empty. -/
theorem intToString_ne_empty (n : Int) : toString n ≠ "" := by
  cases n with
  | ofNat m => exact natRepr_ne_empty m
  | negSucc m =>
      show "-" ++ toString (m + 1) ≠ ""
      intro h
      have := congrArg String.data h
      simp [String.data_append] at this

/-! Claim theorems. -/

/-- C5: the matching rule accepts a key of the shape n.d, where n is the
    decimal string of the candidate integer and d one digit, against that
    candidate, because stripping the two-character suffix recovers exactly
    the decimal string; an absent key is normalized to empty text and
    matches no candidate, since no integer prints as the empty string. -/
theorem claim_c5_suffix_match :
    (∀ (n : Int) (d : Char), d.isDigit = true →
        segment_matches (some (toString n ++ "." ++ String.singleton d)) n = true)
    ∧ (∀ n : Int, segment_matches none n = false) := by
  constructor
  · intro n d _
    have hdata : (toString n ++ "." ++ String.singleton d).data
        = (toString n).data ++ ['.', d] := by
      simp [String.data_append, String.singleton]
    have h2 : ((toString n).data ++ ['.', d]).dropLast.dropLast = (toString n).data :=
      dropLast_two_append _ _ _
    simp [segment_matches, pydrop2, Option.getD, hdata, h2, mk_data]
  · intro n
    have h0 : pydrop2 "" = "" := rfl
    simp only [segment_matches, Option.getD, h0, decide_eq_false_iff_not]
    exact fun h => intToString_ne_empty n h.symm

/-- C5 witness: the rule accepts "3.1" against candidate 3, and an absent
    key does not match candidate 0. -/
theorem claim_c5_witness :
    segment_matches (some (toString (3 : Int) ++ "." ++ String.singleton '1')) 3 = true
    ∧ segment_matches none (0 : Int) = false :=
  ⟨claim_c5_suffix_match.1 3 '1' (by decide), claim_c5_suffix_match.2 0⟩

/-- C7: for a group with exactly one member the merged title is that
    members title verbatim and the merged overview is that members
    overview exactly, absent overview included. -/
theorem claim_c7_singleton_identity (seg : Segment) :
    create_episode_title [seg] = seg.name
    ∧ create_episode_overview [seg] = seg.overview := by
  constructor
  · show String.mk (joinSepL (" | ".data) [seg.name.data]) = seg.name
    rw [show joinSepL (" | ".data) [seg.name.data] = seg.name.data from rfl, mk_data]
  · rfl

/-- C2: retrieve_single_entry returns the empty string on every input,
    because indexing the entries set raises TypeError which the bare except
    swallows; in particular a singleton group with field text "en" merges
    to empty text, not to a member of the observed value set. -/
theorem claim_c2_single_value_always_empty :
    retrieve_single_entry [⟨"A", none, Elem.mk "Episode" none [leafE "Language" (some "en")]⟩]
      "Language" = ""
    ∧ ∀ (episode_parts : List Segment) (tag : String),
        retrieve_single_entry episode_parts tag = "" := by
  refine ⟨rfl, ?_⟩
  intro parts tag
  unfold retrieve_single_entry
  cases h : listExAll (parts.map (memberText tag)) with
  | error e => simp [Bind.bind, Except.bind, h]
  | ok texts => simp [Bind.bind, Except.bind, h, pySetIndex]

/-- C9: a (season, candidate) pair whose group comes back empty produces no
    merged node (the candidate is silently skipped), and a document whose
    episodes expose no usable release-season label transforms to a Data
    element holding exactly the cloned series node. -/
theorem claim_c9_skip_empty :
    (∀ (tree : Elem) (s : String) (n : Int),
        build_episode_parts tree s n = .ok [] → process_candidate tree s n = .ok none)
    ∧ (∀ (tree series : Elem),
        tree.find "Series" = some series →
        get_element_texts tree "Episode" "DVD_season" = [] →
        create_dvd_tree tree = .ok (Elem.mk "Data" none [series])) := by
  constructor
  · intro tree s n h
    unfold process_candidate
    simp [Bind.bind, Except.bind, h, Pure.pure, Except.pure]
  · intro tree series hser hseas
    unfold create_dvd_tree
    rw [hser, hseas]
    rfl

/-- C9 witness: candidate 1 of season "1" in the scenario document has an
    empty group and is skipped, and the season-free document transforms to
    the bare cloned series node. -/
theorem claim_c9_witness :
    (build_episode_parts docC1 "1" 1 = .ok [] ∧ process_candidate docC1 "1" 1 = .ok none)
    ∧ (docNoSeason.find "Series" = some seriesElem
       ∧ get_element_texts docNoSeason "Episode" "DVD_season" = []
       ∧ create_dvd_tree docNoSeason = .ok (Elem.mk "Data" none [seriesElem])) :=
  ⟨⟨rfl, claim_c9_skip_empty.1 docC1 "1" 1 rfl⟩,
   ⟨rfl, rfl, claim_c9_skip_empty.2 docNoSeason seriesElem rfl rfl⟩⟩

/-- C1 counterexample: on the scenario document exactly as stated (keys
    "01", "02", "03.1", "03.2") the transform emits no episode node at all,
    not three: stripping two characters from "01" leaves the empty string
    and from "03.1" leaves "03", neither equal to a candidate string. -/
theorem claim_c1_counterexample :
    create_dvd_tree docC1 = .ok (Elem.mk "Data" none [seriesElem]) := rfl

/-- C1 amended: with the keys in the float form the two-character strip
    actually recovers ("1.0", "2.0", "3.1", "3.2") and structurally
    complete records, the transform emits exactly the three merged nodes of
    the claim, with the stated titles, numbers and overviews. -/
theorem claim_c1_amended :
    create_dvd_tree docC1amended =
      .ok (Elem.mk "Data" none
        [seriesElem,
         mergedEp "1" "Alpha" "first",
         mergedEp "2" "Beta" "second",
         mergedEp "3" "Gamma1 | Gamma2" "Gamma1:\ng1\nGamma2:\ng2"]) := rfl

/-- C3 counterexample: a document with one episode in season "1" whose
    release-episode key is the unparsable text "abc" makes the transform
    raise ValueError at the candidate derivation, so the transform does not
    return a document for every input. -/
theorem claim_c3_counterexample :
    create_dvd_tree docC3bad = .error .valueError := rfl

/-- C10: the matching rule accepts a key against candidate n exactly when
    the key with its last two characters removed equals the decimal string
    of n, whatever the two characters are; hence in a document carrying
    keys "3.0" and "312", the candidates are 3 and 312, the record with key
    "312" joins the group of candidate 3 together with the "3.0" record,
    and the group of its own truncated value 312 stays empty. -/
theorem claim_c10_two_char_strip :
    (∀ (k : String) (n : Int), segment_matches (some k) n = true ↔ pydrop2 k = toString n)
    ∧ derive_candidates docC10 = .ok [3, 312]
    ∧ build_episode_parts docC10 "1" 3 =
        .ok [⟨"A", none, srcEp "1" "3.0" "A" none⟩, ⟨"B", none, srcEp "1" "312" "B" none⟩]
    ∧ build_episode_parts docC10 "1" 312 = .ok [] := by
  refine ⟨?_, rfl, rfl, rfl⟩
  intro k n
  simp [segment_matches, Option.getD]

/-- Two-member group carrying Rating texts "8.0" and "9.0". -/
def partsC8 : List Segment :=
  [⟨"A", none, Elem.mk "Episode" none [leafE "Rating" (some "8.0")]⟩,
   ⟨"B", none, Elem.mk "Episode" none [leafE "Rating" (some "9.0")]⟩]

/-- Single-member group whose episode node has no Rating child at all. -/
def partsC8absent : List Segment :=
  [⟨"A", none, Elem.mk "Episode" none [leafE "Language" (some "en")]⟩]

/-- C8: the average aggregator merges Rating texts "8.0" and "9.0" to the
    decimal text "8.5"; and whenever the field value of every member fails
    to produce a float (absent child, None text or unparsable text), the
    aggregator degrades to the literal text "0" -- the empty group included,
    where the division by zero members is likewise caught. -/
theorem claim_c8_average :
    get_average_value partsC8 "Rating" = "8.5"
    ∧ ∀ (episode_parts : List Segment) (tag : String),
        (∀ seg ∈ episode_parts, (fieldFloat tag seg).isOk = false) →
        get_average_value episode_parts tag = "0" := by
  refine ⟨rfl, ?_⟩
  intro parts tag h
  cases parts with
  | nil => rfl
  | cons a rest =>
      have ha := h a (List.mem_cons_self a rest)
      unfold get_average_value
      cases hf : fieldFloat tag a with
      | ok v => rw [hf] at ha; simp [Except.isOk, Except.toBool] at ha
      | error e => simp [listExAll, hf]

/-- C8 witness: a group whose single member lacks the Rating child
    satisfies the failure hypothesis and merges to "0". -/
theorem claim_c8_witness :
    (∀ seg ∈ partsC8absent, (fieldFloat "Rating" seg).isOk = false)
    ∧ get_average_value partsC8absent "Rating" = "0" :=
  ⟨by decide, claim_c8_average.2 partsC8absent "Rating" (by decide)⟩


/-! Lemmas on the character-level split and join, toward claim C6. -/

/-- Prepending to the head piece never empties the piece list. -/
theorem consHead_ne_nil (c : Char) (x : List (List Char)) : consHead c x ≠ [] := by
  cases x <;> simp [consHead]

/-- A split always yields at least one piece. -/
theorem splitChars_ne_nil (sep : Char) (l : List Char) : splitChars sep l ≠ [] := by
  induction l with
  | nil => simp [splitChars]
  | cons c cs ih =>
      simp only [splitChars]
      split
      · simp
      · exact consHead_ne_nil c _

/-- No piece produced by a split contains the separator. -/
theorem mem_splitChars_not_sep (sep : Char) :
    ∀ (l : List Char), ∀ p ∈ splitChars sep l, sep ∉ p := by
  intro l
  induction l with
  | nil =>
      intro p hp
      simp [splitChars] at hp
      simp [hp]
  | cons c cs ih =>
      intro p hp
      simp only [splitChars] at hp
      by_cases hc : c = sep
      · rw [if_pos hc] at hp
        rcases List.mem_cons.mp hp with h | h
        · simp [h]
        · exact ih p h
      · rw [if_neg hc] at hp
        cases hsc : splitChars sep cs with
        | nil => exact absurd hsc (splitChars_ne_nil sep cs)
        | cons q qs =>
            rw [hsc] at hp
            simp only [consHead] at hp
            rcases List.mem_cons.mp hp with h | h
            · subst h
              intro hmem
              rcases List.mem_cons.mp hmem with h2 | h2
              · exact hc h2.symm
              · exact ih q (by rw [hsc]; exact List.mem_cons_self q qs) h2
            · exact ih p (by rw [hsc]; exact List.mem_cons_of_mem q h)

/-- Splitting after appending a final separator adds one empty piece. -/
theorem splitChars_append_sep (sep : Char) (l : List Char) :
    splitChars sep (l ++ [sep]) = splitChars sep l ++ [[]] := by
  induction l with
  | nil => simp [splitChars]
  | cons c cs ih =>
      have e1 : (c :: cs) ++ [sep] = c :: (cs ++ [sep]) := rfl
      by_cases hc : c = sep
      · rw [e1,
          show splitChars sep (c :: (cs ++ [sep])) = [] :: splitChars sep (cs ++ [sep]) from
            by simp [splitChars, if_pos hc],
          show splitChars sep (c :: cs) = [] :: splitChars sep cs from
            by simp [splitChars, if_pos hc],
          ih]
        rfl
      · rw [e1,
          show splitChars sep (c :: (cs ++ [sep]))
              = consHead c (splitChars sep (cs ++ [sep])) from by simp [splitChars, if_neg hc],
          show splitChars sep (c :: cs) = consHead c (splitChars sep cs) from
            by simp [splitChars, if_neg hc],
          ih]
        cases hsc : splitChars sep cs with
        | nil => exact absurd hsc (splitChars_ne_nil sep cs)
        | cons q qs => simp [consHead]

/-- A separator-free list splits into itself as the single piece. -/
theorem splitChars_no_sep (sep : Char) :
    ∀ (p : List Char), sep ∉ p → splitChars sep p = [p] := by
  intro p
  induction p with
  | nil => intro _; rfl
  | cons c cs ih =>
      intro h
      have hc : ¬ (c = sep) := fun e => h (List.mem_cons.mpr (Or.inl e.symm))
      have hcs : sep ∉ cs := fun m => h (List.mem_cons_of_mem c m)
      simp [splitChars, if_neg hc, ih hcs, consHead]

/-- Splitting a separator-free prefix followed by a separator peels off
    that prefix as the first piece. -/
theorem splitChars_sepfree_append (sep : Char) :
    ∀ (p rest : List Char), sep ∉ p →
      splitChars sep (p ++ sep :: rest) = p :: splitChars sep rest := by
  intro p rest
  induction p with
  | nil => intro _; simp [splitChars]
  | cons c cs ih =>
      intro h
      have hc : ¬ (c = sep) := fun e => h (List.mem_cons.mpr (Or.inl e.symm))
      have hcs : sep ∉ cs := fun m => h (List.mem_cons_of_mem c m)
      have e1 : (c :: cs) ++ sep :: rest = c :: (cs ++ sep :: rest) := rfl
      rw [e1,
        show splitChars sep (c :: (cs ++ sep :: rest))
            = consHead c (splitChars sep (cs ++ sep :: rest)) from
          by simp [splitChars, if_neg hc],
        ih hcs]
      simp [consHead]

/-- Splitting on the separator inverts a separator-joined nonempty list of
    separator-free pieces. -/
theorem splitChars_joinSepL (sep : Char) :
    ∀ (ps : List (List Char)), ps ≠ [] → (∀ p ∈ ps, sep ∉ p) →
      splitChars sep (joinSepL [sep] ps) = ps := by
  intro ps
  induction ps with
  | nil => intro h; exact absurd rfl h
  | cons p ps ih =>
      intro _ h
      cases ps with
      | nil => exact splitChars_no_sep sep p (h p (List.mem_cons_self p []))
      | cons q qs =>
          have hj : joinSepL [sep] (p :: q :: qs) = p ++ sep :: joinSepL [sep] (q :: qs) := by
            simp [joinSepL]
          rw [hj, splitChars_sepfree_append sep p _ (h p (List.mem_cons_self _ _)),
              ih (by simp) (fun r hr => h r (List.mem_cons_of_mem p hr))]

/-! Lemmas on sorting, deduplication and garbage removal, toward C6. -/

/-- Characters with the same code point are equal. -/
theorem char_toNat_inj {a b : Char} (h : a.toNat = b.toNat) : a = b :=
  Char.ext (UInt32.ext h)

/-- Strings with the same character data are equal. -/
theorem data_inj {a b : String} (h : a.data = b.data) : a = b := by
  have h2 := congrArg String.mk h
  rwa [mk_data, mk_data] at h2

/-- The comparison accepts the empty list against anything. -/
theorem leChars_nil (bs : List Char) : leChars [] bs = true := rfl

/-- The empty string is minimal in the code-point order. -/
theorem empty_le (s : String) : pyStrLe "" s = true := rfl

/-- The code-point comparison is total. -/
theorem leChars_total : ∀ as bs : List Char, leChars as bs = true ∨ leChars bs as = true := by
  intro as
  induction as with
  | nil => intro bs; left; rfl
  | cons a as ih =>
      intro bs
      cases bs with
      | nil => right; rfl
      | cons b bs =>
          by_cases h1 : a.toNat < b.toNat
          · left; simp [leChars, h1]
          · by_cases h2 : b.toNat < a.toNat
            · right; simp [leChars, h2]
            · rcases ih bs with h | h
              · left; simp [leChars, h1, h2, h]
              · right; simp [leChars, h1, h2, h]

/-- The code-point comparison is transitive. -/
theorem leChars_trans :
    ∀ as bs cs : List Char,
      leChars as bs = true → leChars bs cs = true → leChars as cs = true := by
  intro as
  induction as with
  | nil => intro bs cs _ _; rfl
  | cons a as ih =>
      intro bs cs h1 h2
      cases bs with
      | nil => simp [leChars] at h1
      | cons b bs =>
          cases cs with
          | nil => simp [leChars] at h2
          | cons c cs =>
              simp only [leChars] at h1 h2 ⊢
              by_cases hab : a.toNat < b.toNat
              · by_cases hbc : b.toNat < c.toNat
                · have : a.toNat < c.toNat := Nat.lt_trans hab hbc
                  simp [this]
                · by_cases hcb : c.toNat < b.toNat
                  · simp [hbc, hcb] at h2
                  · have hbceq : b.toNat = c.toNat := Nat.le_antisymm
                      (Nat.le_of_not_lt hcb) (Nat.le_of_not_lt hbc)
                    have : a.toNat < c.toNat := hbceq ▸ hab
                    simp [this]
              · by_cases hba : b.toNat < a.toNat
                · simp [hab, hba] at h1
                · have habeq : a.toNat = b.toNat := Nat.le_antisymm
                    (Nat.le_of_not_lt hba) (Nat.le_of_not_lt hab)
                  rw [if_neg hab, if_neg hba] at h1
                  by_cases hbc : b.toNat < c.toNat
                  · have : a.toNat < c.toNat := habeq ▸ hbc
                    simp [this]
                  · by_cases hcb : c.toNat < b.toNat
                    · simp [hbc, hcb] at h2
                    · rw [if_neg hbc, if_neg hcb] at h2
                      have hac : ¬ a.toNat < c.toNat := by omega
                      have hca : ¬ c.toNat < a.toNat := by omega
                      simp [hac, hca, ih bs cs h1 h2]

/-- The code-point comparison is antisymmetric. -/
theorem leChars_antisymm :
    ∀ as bs : List Char, leChars as bs = true → leChars bs as = true → as = bs := by
  intro as
  induction as with
  | nil =>
      intro bs _ h2
      cases bs with
      | nil => rfl
      | cons b bs => simp [leChars] at h2
  | cons a as ih =>
      intro bs h1 h2
      cases bs with
      | nil => simp [leChars] at h1
      | cons b bs =>
          simp only [leChars] at h1 h2
          by_cases hab : a.toNat < b.toNat
          · have hba : ¬ b.toNat < a.toNat := by omega
            simp [hab, hba] at h2
          · by_cases hba : b.toNat < a.toNat
            · simp [hab, hba] at h1
            · rw [if_neg hab, if_neg hba] at h1
              rw [if_neg hba, if_neg hab] at h2
              have : a = b := char_toNat_inj (by omega)
              rw [this, ih bs h1 h2]

/-- Totality instance for the sorting relation. -/
instance : IsTotal String (fun a b : String => pyStrLe a b = true) :=
  ⟨fun a b => leChars_total a.data b.data⟩

/-- Transitivity instance for the sorting relation. -/
instance : IsTrans String (fun a b : String => pyStrLe a b = true) :=
  ⟨fun a b c h1 h2 => leChars_trans a.data b.data c.data h1 h2⟩

/-- Antisymmetry instance for the sorting relation. -/
instance : IsAntisymm String (fun a b : String => pyStrLe a b = true) :=
  ⟨fun a b h1 h2 => data_inj (leChars_antisymm a.data b.data h1 h2)⟩

/-- The sorted deduplication is sorted. -/
theorem sortDedupStr_sorted (l : List String) :
    List.Sorted (fun a b : String => pyStrLe a b = true) (sortDedupStr l) :=
  List.sorted_insertionSort _ _

/-- The sorted deduplication has no duplicates. -/
theorem sortDedupStr_nodup (l : List String) : (sortDedupStr l).Nodup :=
  ((List.perm_insertionSort _ _).nodup_iff).mpr (List.nodup_dedup l)

/-- The sorted deduplication has the same members as its input. -/
theorem mem_sortDedupStr {x : String} {l : List String} :
    x ∈ sortDedupStr l ↔ x ∈ l := by
  unfold sortDedupStr
  rw [List.mem_insertionSort, List.mem_dedup]

/-- One conditional erase step is a sublist of its input. -/
theorem ifErase_sublist (m : List String) (t : String) :
    List.Sublist (if t ∈ m then m.erase t else m) m := by
  split
  · exact List.erase_sublist t m
  · exact List.Sublist.refl m

/-- One conditional erase step keeps distinctness. -/
theorem ifErase_nodup {m : List String} (h : m.Nodup) (t : String) :
    (if t ∈ m then m.erase t else m).Nodup := by
  split
  · exact List.Nodup.erase t h
  · exact h

/-- After the conditional erase step the erased value is gone (the input
    being duplicate-free). -/
theorem ifErase_not_mem {m : List String} (h : m.Nodup) (t : String) :
    t ∉ (if t ∈ m then m.erase t else m) := by
  split
  · exact h.not_mem_erase
  · assumption

/-- Unfolded form of removeGarbage as two conditional erase steps. -/
theorem removeGarbage_eq (l : List String) :
    removeGarbage l
      = (if "None" ∈ (if "" ∈ l then l.erase "" else l)
         then (if "" ∈ l then l.erase "" else l).erase "None"
         else (if "" ∈ l then l.erase "" else l)) := rfl

/-- Garbage removal is a sublist of its input. -/
theorem removeGarbage_sublist (l : List String) : List.Sublist (removeGarbage l) l := by
  rw [removeGarbage_eq]
  exact (ifErase_sublist _ "None").trans (ifErase_sublist l "")

/-- On a duplicate-free input, garbage removal keeps distinctness and
    leaves neither the empty string nor the literal "None". -/
theorem removeGarbage_spec (l : List String) (h : l.Nodup) :
    (removeGarbage l).Nodup ∧ "" ∉ removeGarbage l ∧ "None" ∉ removeGarbage l := by
  have h1nd : (if "" ∈ l then l.erase "" else l).Nodup := ifErase_nodup h ""
  have h1ne : "" ∉ (if "" ∈ l then l.erase "" else l) := ifErase_not_mem h ""
  rw [removeGarbage_eq]
  refine ⟨ifErase_nodup h1nd "None", ?_, ifErase_not_mem h1nd "None"⟩
  exact fun hm => h1ne ((ifErase_sublist _ "None").subset hm)

/-- Garbage removal keeps sortedness. -/
theorem removeGarbage_sorted {l : List String}
    (h : List.Sorted (fun a b : String => pyStrLe a b = true) l) :
    List.Sorted (fun a b : String => pyStrLe a b = true) (removeGarbage l) :=
  List.Pairwise.sublist (removeGarbage_sublist l) h

/-- The flattened, sorted, garbage-free item list of the pipeline is
    sorted, duplicate-free, holds neither garbage token, and none of its
    items contains the pipe separator. -/
theorem piped_flat_spec (listy : List String) :
    List.Sorted (fun a b : String => pyStrLe a b = true) (piped_flat listy)
    ∧ (piped_flat listy).Nodup
    ∧ "" ∉ piped_flat listy
    ∧ "None" ∉ piped_flat listy
    ∧ ∀ x ∈ piped_flat listy, '|' ∉ x.data := by
  have hnd := sortDedupStr_nodup ((listy.map (pysplit '|')).flatten)
  have hs := sortDedupStr_sorted ((listy.map (pysplit '|')).flatten)
  obtain ⟨a, b, c⟩ := removeGarbage_spec _ hnd
  refine ⟨removeGarbage_sorted hs, a, b, c, ?_⟩
  intro x hx
  have hx2 : x ∈ (listy.map (pysplit '|')).flatten :=
    mem_sortDedupStr.mp ((removeGarbage_sublist _).subset hx)
  rcases List.mem_flatten.mp hx2 with ⟨piece, hpiece, hxp⟩
  rcases List.mem_map.mp hpiece with ⟨t, ht, rfl⟩
  rcases List.mem_map.mp hxp with ⟨p, hp, rfl⟩
  simpa using mem_splitChars_not_sep '|' t.data p hp

/-! Canonical form of the pipeline output and idempotence, claim C6. -/

/-- Character data of the framed pipeline output. -/
theorem framed_data (fl : List String) :
    ("|" ++ pyjoinS "|" fl ++ "|").data
      = '|' :: (joinSepL ['|'] (fl.map String.data) ++ ['|']) := rfl

/-- Splitting the framed output recovers one empty piece, the items and a
    final empty piece, provided the items are separator-free. -/
theorem pysplit_framed (fl : List String) (hne : fl ≠ [])
    (hsep : ∀ x ∈ fl, '|' ∉ x.data) :
    pysplit '|' ("|" ++ pyjoinS "|" fl ++ "|") = "" :: (fl ++ [""]) := by
  have hmapne : fl.map String.data ≠ [] := by
    intro h
    exact hne (List.map_eq_nil_iff.mp h)
  have hpieces : ∀ p ∈ fl.map String.data, '|' ∉ p := by
    intro p hp
    rcases List.mem_map.mp hp with ⟨x, hx, rfl⟩
    exact hsep x hx
  have hcomp : List.map (String.mk ∘ String.data) fl = fl := by
    have h4 : (String.mk ∘ String.data) = fun x : String => x := funext (fun x => mk_data x)
    rw [h4]
    exact List.map_id' fl
  unfold pysplit
  rw [framed_data fl,
    show splitChars '|' ('|' :: (joinSepL ['|'] (fl.map String.data) ++ ['|']))
        = [] :: splitChars '|' (joinSepL ['|'] (fl.map String.data) ++ ['|']) from by
      simp [splitChars],
    splitChars_append_sep, splitChars_joinSepL '|' (fl.map String.data) hmapne hpieces]
  simp only [List.map_cons, List.map_append, List.map_map, List.map_nil]
  rw [show (String.mk [] : String) = "" from rfl, hcomp]

/-- Sorting and deduplicating the split of the framed output of a sorted,
    duplicate-free, empty-free item list prepends exactly one empty item. -/
theorem sortDedupStr_canonical (fl : List String)
    (hs : List.Sorted (fun a b : String => pyStrLe a b = true) fl) (hnd : fl.Nodup)
    (he : "" ∉ fl) :
    sortDedupStr ("" :: (fl ++ [""])) = "" :: fl := by
  unfold sortDedupStr
  have hmem : "" ∈ fl ++ [""] := List.mem_append_right fl (List.mem_singleton.mpr rfl)
  have hd : ("" :: (fl ++ [""])).dedup = fl ++ [""] := by
    rw [@List.dedup_cons_of_mem String _ "" (fl ++ [""]) hmem]
    refine List.dedup_eq_self.mpr ?_
    rw [List.nodup_append]
    exact ⟨hnd, by simp, fun a ha hb => he (List.mem_singleton.mp hb ▸ ha)⟩
  rw [hd]
  have hsorted2 : List.Sorted (fun a b : String => pyStrLe a b = true) ("" :: fl) :=
    List.sorted_cons.mpr ⟨fun b _ => empty_le b, hs⟩
  exact List.eq_of_perm_of_sorted
    ((List.perm_insertionSort _ _).trans (List.perm_append_singleton "" fl))
    (List.sorted_insertionSort _ _) hsorted2

/-- Garbage removal deletes the leading empty item and nothing else from an
    item list free of the literal "None". -/
theorem removeGarbage_cons_empty (fl : List String) (hn : "None" ∉ fl) :
    removeGarbage ("" :: fl) = fl := by
  rw [removeGarbage_eq]
  have h1 : (if "" ∈ ("" :: fl) then ("" :: fl).erase "" else ("" :: fl)) = fl := by
    rw [if_pos (List.mem_cons_self "" fl)]
    exact List.erase_cons_head "" fl
  rw [h1, if_neg hn]

/-- The framed output of a nonempty, empty-free item list is never the
    empty-list marker. -/
theorem framed_ne_marker (fl : List String) (hne : fl ≠ []) (he : "" ∉ fl) :
    ("|" ++ pyjoinS "|" fl ++ "|") ≠ "||" := by
  intro h
  have hd := congrArg String.data h
  rw [framed_data fl] at hd
  have hJ : joinSepL ['|'] (fl.map String.data) = [] := by
    have hlen := congrArg List.length hd
    simp [List.length_append] at hlen
    exact hlen
  cases fl with
  | nil => exact hne rfl
  | cons x xs =>
      cases xs with
      | nil =>
          have hx : x.data = [] := by simpa [joinSepL] using hJ
          have hx2 : x = "" := by
            have h3 := congrArg String.mk hx
            rwa [mk_data] at h3
          exact he (List.mem_singleton.mpr hx2.symm)
      | cons y ys =>
          rw [show joinSepL ['|'] ((x :: y :: ys).map String.data)
              = x.data ++ ['|'] ++ joinSepL ['|'] ((y :: ys).map String.data) from by
            simp [joinSepL]] at hJ
          simp at hJ

/-- Unfolded form of the pipeline body. -/
theorem piped_core_eq (listy : List String) :
    piped_core listy
      = if ("|" ++ pyjoinS "|" (piped_flat listy) ++ "|") = "||" then ""
        else "|" ++ pyjoinS "|" (piped_flat listy) ++ "|" := rfl

/-- The pipeline on the single empty text degrades to the empty text. -/
theorem piped_core_empty_input : piped_core [""] = "" := rfl

/-- The pipeline maps its own framed canonical output to itself. -/
theorem piped_core_canonical (fl : List String)
    (hs : List.Sorted (fun a b : String => pyStrLe a b = true) fl) (hnd : fl.Nodup)
    (he : "" ∉ fl) (hn : "None" ∉ fl)
    (hsep : ∀ x ∈ fl, '|' ∉ x.data) (hne : fl ≠ []) :
    piped_core ["|" ++ pyjoinS "|" fl ++ "|"] = "|" ++ pyjoinS "|" fl ++ "|" := by
  have hflat : piped_flat ["|" ++ pyjoinS "|" fl ++ "|"] = fl := by
    unfold piped_flat
    rw [show ([("|" ++ pyjoinS "|" fl ++ "|")].map (pysplit '|')).flatten
        = pysplit '|' ("|" ++ pyjoinS "|" fl ++ "|") from by simp,
      pysplit_framed fl hne hsep,
      sortDedupStr_canonical fl hs hnd he,
      removeGarbage_cons_empty fl hn]
  rw [piped_core_eq, hflat, if_neg (framed_ne_marker fl hne he)]

/-- The pipeline is idempotent: feeding its output back in as the single
    member text reproduces the output. -/
theorem piped_core_idem (listy : List String) :
    piped_core [piped_core listy] = piped_core listy := by
  obtain ⟨hs, hnd, he, hn, hsep⟩ := piped_flat_spec listy
  by_cases hfl : piped_flat listy = []
  · rw [piped_core_eq listy, hfl,
      show ("|" ++ pyjoinS "|" ([] : List String) ++ "|") = "||" from rfl, if_pos rfl]
    exact piped_core_empty_input
  · rw [piped_core_eq listy, if_neg (framed_ne_marker _ hfl he)]
    exact piped_core_canonical (piped_flat listy) hs hnd he hn hsep hfl

/-- A group with one member whose node carries exactly one child with the
    requested tag feeds that text to the pipeline. -/
theorem compile_piped_list_singleton (nm : String) (ov : Option String) (tag txt : String) :
    compile_piped_list [⟨nm, ov, Elem.mk "Episode" none [Elem.mk tag (some txt) []]⟩] tag
      = piped_core [txt] := by
  unfold compile_piped_list
  rw [show listOptAll
      ([(⟨nm, ov, Elem.mk "Episode" none [Elem.mk tag (some txt) []]⟩ : Segment)].map
        (fun seg => (seg.epNode.find tag).bind Elem.text)) = some [txt] from by
    simp [Elem.find, Elem.children, Elem.tag, Elem.text, listOptAll, List.find?]]

/-- Two-member group carrying GuestStars texts "Smith|Jones" and "Jones|". -/
def partsC6 : List Segment :=
  [⟨"A", none, Elem.mk "Episode" none [leafE "GuestStars" (some "Smith|Jones")]⟩,
   ⟨"B", none, Elem.mk "Episode" none [leafE "GuestStars" (some "Jones|")]⟩]

/-- C6: the piped-list aggregator merges member texts "Smith|Jones" and
    "Jones|" to exactly "|Jones|Smith|"; and for every group and tag,
    re-running the aggregator on a single-member group holding the previous
    output as its field text reproduces that output identically. -/
theorem claim_c6_piped_list :
    compile_piped_list partsC6 "GuestStars" = "|Jones|Smith|"
    ∧ ∀ (episode_parts : List Segment) (tag : String),
        compile_piped_list
          [⟨"X", none, Elem.mk "Episode" none
              [Elem.mk tag (some (compile_piped_list episode_parts tag)) []]⟩] tag
          = compile_piped_list episode_parts tag := by
  constructor
  · rfl
  · intro parts tag
    rw [compile_piped_list_singleton "X" none tag (compile_piped_list parts tag)]
    cases hm : listOptAll (parts.map (fun seg => (seg.epNode.find tag).bind Elem.text)) with
    | none =>
        rw [show compile_piped_list parts tag = "" from by
          unfold compile_piped_list; rw [hm]]
        exact piped_core_empty_input
    | some listy =>
        rw [show compile_piped_list parts tag = piped_core listy from by
          unfold compile_piped_list; rw [hm]]
        exact piped_core_idem listy

/-! Conditional totality of the transform, toward the amended claim C3. -/

/-- The nine field tags the merger removes from the first-member tag list. -/
def removableTags : List String :=
  ["EpisodeName", "Overview", "SeasonNumber", "EpisodeNumber",
   "Director", "Writer", "GuestStars", "Rating", "EpImgFlag"]

/-- Structural conditions on one episode element under which the merger
    never raises: the four per-segment fields and the flag field are
    present, and the nine removable tags occur among the children. -/
def episodeWellFormed (ep : Elem) : Prop :=
  (ep.find "DVD_season").isSome = true
  ∧ (ep.find "DVD_episodenumber").isSome = true
  ∧ (ep.find "EpisodeName").isSome = true
  ∧ (ep.find "Overview").isSome = true
  ∧ (ep.find "EpImgFlag").isSome = true
  ∧ ∀ t ∈ removableTags, t ∈ ep.children.map Elem.tag

instance (ep : Elem) : Decidable (episodeWellFormed ep) := by
  unfold episodeWellFormed
  infer_instance

/-- A result that passes the isOk test is an ok value. -/
theorem except_isOk_exists {e : Except PyErr α} (h : e.isOk = true) :
    ∃ v, e = .ok v := by
  cases e with
  | error e2 => simp [Except.isOk, Except.toBool] at h
  | ok v => exact ⟨v, rfl⟩

/-- Sequencing a list of ok results is ok. -/
theorem listExAll_ok {l : List (Except PyErr α)} (h : ∀ x ∈ l, x.isOk = true) :
    ∃ out, listExAll l = .ok out := by
  induction l with
  | nil => exact ⟨[], rfl⟩
  | cons a rest ih =>
      obtain ⟨v, hv⟩ := except_isOk_exists (h a (List.mem_cons_self a rest))
      obtain ⟨out, hout⟩ := ih (fun x hx => h x (List.mem_cons_of_mem a hx))
      subst hv
      exact ⟨v :: out, by simp [listExAll, hout, Except.map]⟩

/-- Collecting over per-item steps that are all ok is ok. -/
theorem collectSome_ok {f : α → Except PyErr (Option β)} {l : List α}
    (h : ∀ a ∈ l, (f a).isOk = true) : ∃ bs, collectSome f l = .ok bs := by
  induction l with
  | nil => exact ⟨[], rfl⟩
  | cons a as ih =>
      obtain ⟨ob, hob⟩ := except_isOk_exists (h a (List.mem_cons_self a as))
      obtain ⟨bs, hbs⟩ := ih (fun x hx => h x (List.mem_cons_of_mem a hx))
      cases ob with
      | none =>
          exact ⟨bs, by
            simp [collectSome, Bind.bind, Except.bind, hob, hbs, Pure.pure, Except.pure]⟩
      | some b =>
          exact ⟨b :: bs, by
            simp [collectSome, Bind.bind, Except.bind, hob, hbs, Pure.pure, Except.pure]⟩

/-- Every collected hit comes from some input item mapped to it. -/
theorem collectSome_mem {f : α → Except PyErr (Option β)} :
    ∀ {l : List α} {bs : List β}, collectSome f l = .ok bs →
      ∀ b ∈ bs, ∃ a ∈ l, f a = .ok (some b) := by
  intro l
  induction l with
  | nil =>
      intro bs h b hb
      simp [collectSome] at h
      subst h
      exact absurd hb (by simp)
  | cons a as ih =>
      intro bs h b hb
      rw [show collectSome f (a :: as)
          = Bind.bind (f a) (fun ob => Bind.bind (collectSome f as)
              (fun bs2 => pure (match ob with | none => bs2 | some b2 => b2 :: bs2)))
        from rfl] at h
      cases hfa : f a with
      | error e =>
          rw [hfa] at h
          simp [Bind.bind, Except.bind] at h
      | ok ob =>
          rw [hfa] at h
          cases hrec : collectSome f as with
          | error e =>
              rw [hrec] at h
              simp [Bind.bind, Except.bind] at h
          | ok bs2 =>
              rw [hrec] at h
              simp only [Bind.bind, Except.bind, Pure.pure, Except.pure,
                Except.ok.injEq] at h
              cases ob with
              | none =>
                  subst h
                  obtain ⟨a2, ha2, hfa2⟩ := ih hrec b hb
                  exact ⟨a2, List.mem_cons_of_mem a ha2, hfa2⟩
              | some b0 =>
                  subst h
                  rcases List.mem_cons.mp hb with hb0 | hb2
                  · exact ⟨a, List.mem_cons_self a as, by rw [hfa, hb0]⟩
                  · obtain ⟨a2, ha2, hfa2⟩ := ih hrec b hb2
                    exact ⟨a2, List.mem_cons_of_mem a ha2, hfa2⟩

/-- The per-item scan step never raises on a well-formed episode. -/
theorem build_segment_isOk (s : String) (n : Int) (item : Elem)
    (h1 : (item.find "DVD_season").isSome = true)
    (h2 : (item.find "DVD_episodenumber").isSome = true)
    (h3 : (item.find "EpisodeName").isSome = true)
    (h4 : (item.find "Overview").isSome = true) :
    (build_segment s n item).isOk = true := by
  obtain ⟨e1, he1⟩ := Option.isSome_iff_exists.mp h1
  obtain ⟨e2, he2⟩ := Option.isSome_iff_exists.mp h2
  obtain ⟨e3, he3⟩ := Option.isSome_iff_exists.mp h3
  obtain ⟨e4, he4⟩ := Option.isSome_iff_exists.mp h4
  unfold build_segment
  rw [he1]
  dsimp only
  split
  · rw [he2]
    dsimp only
    split
    · rw [he3]
      dsimp only
      rw [he4]
      rfl
    · rfl
  · rfl

/-- A collected segment carries the episode node it was built from. -/
theorem build_segment_epNode {s : String} {n : Int} {item : Elem} {seg : Segment}
    (h : build_segment s n item = .ok (some seg)) : seg.epNode = item := by
  unfold build_segment at h
  cases hf1 : item.find "DVD_season" with
  | none => rw [hf1] at h; simp at h
  | some seasElem =>
      rw [hf1] at h
      dsimp only at h
      split at h
      · cases hf2 : item.find "DVD_episodenumber" with
        | none => rw [hf2] at h; simp at h
        | some keyElem =>
            rw [hf2] at h
            dsimp only at h
            split at h
            · cases hf3 : item.find "EpisodeName" with
              | none => rw [hf3] at h; simp at h
              | some nameElem =>
                  rw [hf3] at h
                  dsimp only at h
                  cases hf4 : item.find "Overview" with
                  | none => rw [hf4] at h; simp at h
                  | some overElem =>
                      rw [hf4] at h
                      dsimp only at h
                      cases hnm : nameElem.text with
                      | none => rw [hnm] at h; simp at h
                      | some nm =>
                          rw [hnm] at h
                          injection h with h5
                          injection h5 with h6
                          rw [← h6]
            · injection h with h5
              exact absurd h5.symm (by simp)
      · injection h with h5
        exact absurd h5.symm (by simp)

/-- Sequential removes succeed when the removed tags are distinct and all
    present, and every other member survives. -/
theorem removeAll_ok :
    ∀ (ts l : List String), ts.Nodup → (∀ t ∈ ts, t ∈ l) →
      ∃ l2, removeAll l ts = .ok l2 ∧ ∀ x ∈ l, x ∉ ts → x ∈ l2 := by
  intro ts
  induction ts with
  | nil => intro l _ _; exact ⟨l, rfl, fun x hx _ => hx⟩
  | cons t ts ih =>
      intro l hnd hmem
      have ht : t ∈ l := hmem t (List.mem_cons_self t ts)
      have hstep : pyremove l t = .ok (l.erase t) := by simp [pyremove, ht]
      have htnotin : t ∉ ts := (List.nodup_cons.mp hnd).1
      have hmem2 : ∀ t2 ∈ ts, t2 ∈ l.erase t := by
        intro t2 h2
        have hne : t2 ≠ t := fun e => htnotin (e ▸ h2)
        exact (List.mem_erase_of_ne hne).mpr (hmem t2 (List.mem_cons_of_mem t h2))
      obtain ⟨l2, hrec, hmm⟩ := ih (l.erase t) (List.nodup_cons.mp hnd).2 hmem2
      refine ⟨l2, ?_, ?_⟩
      · rw [show removeAll l (t :: ts)
            = Bind.bind (pyremove l t) (fun l3 => removeAll l3 ts) from rfl,
          hstep]
        simp [Bind.bind, Except.bind, hrec]
      · intro x hx hnx
        have hxt : x ≠ t := fun e => hnx (by rw [e]; exact List.mem_cons_self t ts)
        have hxts : x ∉ ts := fun m => hnx (List.mem_cons_of_mem t m)
        exact hmm x ((List.mem_erase_of_ne hxt).mpr hx) hxts

/-- The boolean-flag aggregator is ok when every member has the flag tag. -/
theorem get_boolean_flag_ok {parts : List Segment} {tag : String}
    (h : ∀ seg ∈ parts, (seg.epNode.find tag).isSome = true) :
    ∃ v, get_boolean_flag parts tag = .ok v := by
  have hall : ∀ x ∈ parts.map (memberText tag), x.isOk = true := by
    intro x hx
    rcases List.mem_map.mp hx with ⟨seg, hseg, rfl⟩
    obtain ⟨e, he⟩ := Option.isSome_iff_exists.mp (h seg hseg)
    simp [memberText, he, Except.isOk, Except.toBool]
  obtain ⟨out, hout⟩ := listExAll_ok hall
  refine ⟨if (some "1") ∈ out then "1" else "0", ?_⟩
  simp [get_boolean_flag, Bind.bind, Except.bind, hout, Pure.pure, Except.pure]

/-- The per-candidate loop body never raises when every episode of the
    document is well formed. -/
theorem process_candidate_ok (tree : Elem) (s : String) (n : Int)
    (heps : ∀ ep ∈ tree.findall "Episode", episodeWellFormed ep) :
    (process_candidate tree s n).isOk = true := by
  have hsegsok : ∀ item ∈ tree.findall "Episode", (build_segment s n item).isOk = true := by
    intro item hit
    obtain ⟨w1, w2, w3, w4, _, _⟩ := heps item hit
    exact build_segment_isOk s n item w1 w2 w3 w4
  obtain ⟨parts, hparts⟩ := collectSome_ok hsegsok
  have horigin : ∀ seg ∈ parts, episodeWellFormed seg.epNode := by
    intro seg hseg
    obtain ⟨item, hit, hbs⟩ := collectSome_mem hparts seg hseg
    rw [build_segment_epNode hbs]
    exact heps item hit
  have hparts2 : build_episode_parts tree s n = .ok parts := hparts
  unfold process_candidate
  rw [hparts2]
  cases parts with
  | nil => rfl
  | cons first rest =>
      obtain ⟨_, _, _, _, _, htags⟩ := horigin first (List.mem_cons_self first rest)
      have hsub1 : ∀ t ∈ ["EpisodeName", "Overview", "SeasonNumber", "EpisodeNumber"],
          t ∈ removableTags := by decide
      have hsub2 : ∀ t ∈ ["Director", "Writer", "GuestStars"], t ∈ removableTags := by decide
      have hsub3 : ∀ t ∈ ["Rating"], t ∈ removableTags := by decide
      have hsub4 : ∀ t ∈ ["EpImgFlag"], t ∈ removableTags := by decide
      have hd21 : ∀ t ∈ ["Director", "Writer", "GuestStars"],
          t ∉ ["EpisodeName", "Overview", "SeasonNumber", "EpisodeNumber"] := by decide
      have hd31 : ∀ t ∈ ["Rating"],
          t ∉ ["EpisodeName", "Overview", "SeasonNumber", "EpisodeNumber"] := by decide
      have hd32 : ∀ t ∈ ["Rating"], t ∉ ["Director", "Writer", "GuestStars"] := by decide
      have hd41 : ∀ t ∈ ["EpImgFlag"],
          t ∉ ["EpisodeName", "Overview", "SeasonNumber", "EpisodeNumber"] := by decide
      have hd42 : ∀ t ∈ ["EpImgFlag"], t ∉ ["Director", "Writer", "GuestStars"] := by decide
      have hd43 : ∀ t ∈ ["EpImgFlag"], t ∉ ["Rating"] := by decide
      obtain ⟨l1, h1, m1⟩ := removeAll_ok
        ["EpisodeName", "Overview", "SeasonNumber", "EpisodeNumber"]
        (first.epNode.children.map Elem.tag) (by decide)
        (fun t ht => htags t (hsub1 t ht))
      obtain ⟨l2, h2, m2⟩ := removeAll_ok ["Director", "Writer", "GuestStars"] l1 (by decide)
        (fun t ht => m1 t (htags t (hsub2 t ht)) (hd21 t ht))
      obtain ⟨l3, h3, m3⟩ := removeAll_ok ["Rating"] l2 (by decide)
        (fun t ht => m2 t (m1 t (htags t (hsub3 t ht)) (hd31 t ht)) (hd32 t ht))
      obtain ⟨l4, h4, _⟩ := removeAll_ok ["EpImgFlag"] l3 (by decide)
        (fun t ht => m3 t (m2 t (m1 t (htags t (hsub4 t ht)) (hd41 t ht)) (hd42 t ht))
          (hd43 t ht))
      obtain ⟨flag, hflag⟩ := get_boolean_flag_ok
        (fun seg hseg => (horigin seg hseg).2.2.2.2.1)
      simp [Bind.bind, Except.bind, h1, h2, h3, h4, hflag, Pure.pure, Except.pure,
        Except.isOk, Except.toBool]

/-- The per-season loop body never raises when all keys parse and every
    episode is well formed. -/
theorem process_season_ok (tree : Elem) (s : String)
    (hkeys : ∀ k ∈ get_element_texts tree "Episode" "DVD_episodenumber",
      (int_float k).isOk = true)
    (heps : ∀ ep ∈ tree.findall "Episode", episodeWellFormed ep) :
    (process_season tree s).isOk = true := by
  have hall : ∀ x ∈ (get_element_texts tree "Episode" "DVD_episodenumber").map int_float,
      x.isOk = true := by
    intro x hx
    rcases List.mem_map.mp hx with ⟨k, hk, rfl⟩
    exact hkeys k hk
  obtain ⟨out, hout⟩ := listExAll_ok hall
  have hcands : derive_candidates tree = .ok (sortDedupInt out) := by
    simp [derive_candidates, hout, Except.map]
  have hstep : ∀ n ∈ sortDedupInt out, (process_candidate tree s n).isOk = true :=
    fun n _ => process_candidate_ok tree s n heps
  obtain ⟨eps, heps2⟩ := collectSome_ok hstep
  unfold process_season
  simp [Bind.bind, Except.bind, hcands, heps2, Except.isOk, Except.toBool]

/-- C3 amended: the transform returns a document without raising for every
    input whose episode nodes each carry the release-season, release-key,
    title, overview and flag fields plus the nine fixed-policy tags, and
    whose release-episode keys all parse as plain decimal numerals. Outside
    those conditions it can raise: an unparsable key raises at candidate
    derivation (see the counterexample) and the boolean-flag aggregator
    raises on a member lacking the flag field, while the piped-list,
    average and single-entry aggregators degrade to values. -/
theorem claim_c3_amended (doc : Elem)
    (hser : (doc.find "Series").isSome = true)
    (hkeys : ∀ k ∈ get_element_texts doc "Episode" "DVD_episodenumber",
      (int_float k).isOk = true)
    (heps : ∀ ep ∈ doc.findall "Episode", episodeWellFormed ep) :
    (create_dvd_tree doc).isOk = true := by
  obtain ⟨series, hser2⟩ := Option.isSome_iff_exists.mp hser
  have hseasons : ∀ x ∈ (get_element_texts doc "Episode" "DVD_season").map
      (process_season doc), x.isOk = true := by
    intro x hx
    rcases List.mem_map.mp hx with ⟨sn, _, rfl⟩
    exact process_season_ok doc sn hkeys heps
  obtain ⟨lists, hlists⟩ := listExAll_ok hseasons
  unfold create_dvd_tree
  rw [hser2]
  simp [Bind.bind, Except.bind, hlists, Pure.pure, Except.pure,
    Except.isOk, Except.toBool]

/-- C3 amended witness: the corrected scenario document satisfies all three
    conditions and the transform succeeds on it. -/
theorem claim_c3_amended_witness :
    ((docC1amended.find "Series").isSome = true
     ∧ (∀ k ∈ get_element_texts docC1amended "Episode" "DVD_episodenumber",
          (int_float k).isOk = true)
     ∧ (∀ ep ∈ docC1amended.findall "Episode", episodeWellFormed ep))
    ∧ (create_dvd_tree docC1amended).isOk = true :=
  ⟨⟨by decide, by decide, by decide⟩,
   claim_c3_amended docC1amended (by decide) (by decide) (by decide)⟩

end DvdOrder
